import Mathlib

set_option maxHeartbeats 1000000

/-!
Verification development for the golden-layout content-item tree engine
(`src/js_es6/items/AbstractContentItem.ts`, `src/js_es6/config/UserConfig.ts`):
the node data model, the id subsystem (`hasId`/`addId`/`removeId`), the tree
mutation engine (`addChild`/`removeChild`/`replaceChild`), the generic tree
walker (`callDownwards`), the query subsystem (`getItemsByFilter`/
`getItemsById`), the event batching state machine
(`scheduleEventPropagationToLayoutManager`/`propagateEventToLayoutManager`)
and the geometry query (`_$getArea`).

Conventions of the embedding:
* JS machine integers/doubles used for geometry are embedded as `Int`
  (only `+` and `*` on offsets occur in the source, no overflow concern).
* The polymorphic `config.id` field (`undefined | string | string[]`) is the
  inductive `IdVal`; JS truthiness of that field is `jsTruthy`.
* A throwing method is embedded as a function returning
  `state × Option String`: the returned state is the receiver's state at the
  moment the method returns or throws, so an exception raised before any
  mutation returns the unchanged receiver (source apostrophes in the error
  message strings are dropped).
* JS object identity of an item (used by `Array.indexOf(contentItem)`) is
  modelled by the `label` field of `NodeData`, assumed unique per tree.
* The aliasing between `config.content[i]` and `contentItems[i].config`
  that holds on construction is represented by each `Item` storing its own
  `content : List Cfg` next to `contentItems : List Item`; invariant I3
  (`wellFormed`) says the stored config view matches the children.
-/

/-- JS value of the `config.id` field: absent (`undefined`), a single string,
or an array of strings. -/
inductive IdVal where
  | none
  | str (s : String)
  | arr (l : List String)
deriving DecidableEq

/-- JS truthiness of the `config.id` field: `undefined` and the empty string
are falsy; every array (even the empty one) is truthy. -/
def jsTruthy : IdVal → Bool
  | IdVal.none => false
  | IdVal.str s => !(s == "")
  | IdVal.arr _ => true

/-- `AbstractContentItem.hasId` (source lines 353-361): returns false when
`config.id` is falsy, compares with `===` when it is a string, and uses
`indexOf !== -1` (membership) when it is an array. -/
def hasId (v : IdVal) (id : String) : Bool :=
  if !jsTruthy v then false
  else
    match v with
    | IdVal.str s => s == id
    | IdVal.arr l => l.contains id
    | IdVal.none => false

/-- `AbstractContentItem.addId` (source lines 372-384): no-op when `hasId`
holds; otherwise a falsy id (absent or empty string) is overwritten with the
string, a string id becomes a two-element array, and an array id is pushed
to. -/
def addId (v : IdVal) (id : String) : IdVal :=
  if hasId v id then v
  else if !jsTruthy v then IdVal.str id
  else
    match v with
    | IdVal.str s => IdVal.arr [s, id]
    | IdVal.arr l => IdVal.arr (l ++ [id])
    | IdVal.none => IdVal.str id

/-- `AbstractContentItem.removeId` (source lines 392-403): throws
`Id not found` when `hasId` is false (leaving the id unchanged), deletes a
string id, and splices the element at `indexOf(id)` out of an array id. -/
def removeId (v : IdVal) (id : String) : IdVal × Option String :=
  if !hasId v id then (v, some "Id not found")
  else
    match v with
    | IdVal.str _ => (IdVal.none, Option.none)
    | IdVal.arr l => (IdVal.arr (l.eraseIdx (l.indexOf id)), Option.none)
    | IdVal.none => (v, Option.none)

/-- Invariant I4 of the spec: the id is absent, a single string, or a
sequence of strings that is never empty. -/
def I4 (v : IdVal) : Prop := v ≠ IdVal.arr []

/-- Per-node configuration data shared between an item and its config view:
`label` models JS object identity of the item (used by `indexOf`), `id` is
`config.id`, `isClosable` is `config.isClosable` and `isRoot` records
whether the item is the `Root` instance (`this instanceof Root`). -/
structure NodeData where
  label : String
  id : IdVal
  isClosable : Bool
  isRoot : Bool
deriving DecidableEq

/-- Serializable config tree: a node-shaped record plus its `content` array
of child configs (`ItemConfig`). -/
inductive Cfg where
  | node : NodeData → List Cfg → Cfg

/-- Runtime content item: its own data, its `config.content` array (stored
separately from the children because `replaceChild` lets the two drift
apart), and its `contentItems` array. -/
inductive Item where
  | node : NodeData → List Cfg → List Item → Item

instance : Inhabited Item := ⟨Item.node ⟨"", IdVal.none, false, false⟩ [] []⟩

/-- Data of an item. -/
def Item.d : Item → NodeData
  | Item.node d _ _ => d

/-- The `config.content` array of an item. -/
def Item.content : Item → List Cfg
  | Item.node _ c _ => c

/-- The `contentItems` array of an item. -/
def Item.contentItems : Item → List Item
  | Item.node _ _ its => its

/-- The `config` object of an item, as seen through the JS aliasing: the
item's data together with its own stored `content` array. -/
def configOf (t : Item) : Cfg := Cfg.node t.d t.content

mutual

/-- Invariant I3 of the spec, recursively: at every node the stored
`config.content` array equals the configs of the `contentItems`, index by
index. -/
def wellFormed : Item → Prop
  | Item.node _ content items => content = items.map configOf ∧ wellFormedAll items

/-- `wellFormed` for every item of a list. -/
def wellFormedAll : List Item → Prop
  | [] => True
  | c :: cs => wellFormed c ∧ wellFormedAll cs

end

/-- JS `Array.splice(i, 0, a)`: insert at index `i`, clamped to the array
length (an index beyond the end appends). -/
def listInsertAt {α : Type} : List α → Nat → α → List α
  | l, 0, a => a :: l
  | [], _+1, a => [a]
  | x :: xs, n+1, a => x :: listInsertAt xs n a

/-- `Array.indexOf(contentItem)` on `this.contentItems`, by object identity
(modelled as the label): `none` plays the role of `-1`. -/
def idxOf (t : Item) (lbl : String) : Option Nat :=
  t.contentItems.findIdx? (fun c => c.d.label == lbl)

/-- `AbstractContentItem.addChild` (source lines 200-217): default index is
the current length; the child is spliced into `contentItems` and its config
into `config.content` at the same index, and the child's parent link is
pointed at the receiver (implicit in the functional tree). The lazy `_$init`
call is behavioural only. -/
def addChild (t : Item) (child : Item) (index : Option Nat) : Item :=
  let i := index.getD t.contentItems.length
  Item.node t.d (listInsertAt t.content i (configOf child))
    (listInsertAt t.contentItems i child)

/-- Receiver-local effect of `AbstractContentItem.removeChild` (source lines
119-163): `indexOf` the child, throw `Cant remove child item. Unknown
content item` when it is `-1` — before any mutation — otherwise destroy the
child (behavioural) and splice the entry out of both `contentItems` and
`config.content`. The upward cascade into the parent is modelled on whole
trees by `removeChildAt`. -/
def removeChildLocal (t : Item) (lbl : String) : Item × Option String :=
  match idxOf t lbl with
  | Option.none => (t, some "Cant remove child item. Unknown content item")
  | some i =>
      (Item.node t.d (t.content.eraseIdx i) (t.contentItems.eraseIdx i), Option.none)

/-- `AbstractContentItem.replaceChild` (source lines 228-266):
`_$normalizeContentItem` is the external factory, idempotent on constructed
items (spec section 6), hence the identity here; `indexOf(oldChild)` equal
to `-1` throws `Cant replace child. oldChild is not child of this` before
any mutation; otherwise the DOM handle swap, optional destroy, the
`processChildReplaced` hook and `_$init` are behavioural, and structurally
only `contentItems[index] = newChild` happens — the source explicitly does
not update `config.content` (TODO comment at line 260). -/
def replaceChild (t : Item) (oldLbl : String) (newChild : Item) : Item × Option String :=
  match idxOf t oldLbl with
  | Option.none => (t, some "Cant replace child. oldChild is not child of this")
  | some i => (Item.node t.d t.content (t.contentItems.set i newChild), Option.none)

/-- Child of an item at an index (`this.contentItems[i]`). -/
def childAt (t : Item) (i : Nat) : Item := t.contentItems.getD i default

/-- Node of a tree reached by following a path of child indices. -/
def getAtPath : Item → List Nat → Item
  | t, [] => t
  | t, i :: p => getAtPath (childAt t i) p

/-- The two lock-step splices of `removeChild` (source lines 144-149):
`contentItems.splice(index, 1)` and `config.content.splice(index, 1)`. -/
def spliceBoth (t : Item) (i : Nat) : Item :=
  Item.node t.d (t.content.eraseIdx i) (t.contentItems.eraseIdx i)

/-- Replace the child at an index, updating the aliased config view as the
in-place JS mutation of the shared config object does. -/
def setChildAt (t : Item) (i : Nat) (c : Item) : Item :=
  Item.node t.d (t.content.set i (configOf c)) (t.contentItems.set i c)

/-- Whole-tree view of `removeChild` (source lines 119-163): remove the
child at index `i` of the node at `path`. After the splice, when the node
still has children only `setSize` runs (behavioural); when it has none and
is closable and not the `Root` instance, `this.parent.removeChild(this)`
removes the node itself from its parent — which is exactly the same check
applied one level up, so the cascade is the recursion on the path. Validity
of the path and index is a proof obligation of the theorems (the validated
error path is `removeChildLocal`). -/
def removeChildAt : Item → List Nat → Nat → Item
  | t, [], i => spliceBoth t i
  | t, j :: p, i =>
      let c := removeChildAt (childAt t j) p i
      if c.contentItems.length == 0 && !c.d.isRoot && c.d.isClosable then
        spliceBoth t j
      else
        setChildAt t j c

mutual

/-- Number of nodes of a tree. -/
def isize : Item → Nat
  | Item.node _ _ items => 1 + isizeList items

/-- Number of nodes of a forest. -/
def isizeList : List Item → Nat
  | [] => 0
  | c :: cs => isize c + isizeList cs

end

mutual

/-- Pre-order list of the strict descendants of a node: for every child in
order, the child itself followed by its own descendants. -/
def descendants : Item → List Item
  | Item.node _ _ items => descendantsList items

/-- Pre-order list of the members of a forest and their descendants. -/
def descendantsList : List Item → List Item
  | [] => []
  | c :: cs => c :: (descendants c ++ descendantsList cs)

end

mutual

/-- `AbstractContentItem.getItemsByFilter` (source lines 408-423): the inner
`next` loops over the children of a node, pushing each child that passes the
filter before recursing into it; the walk starts at the receiver itself, so
the receiver is never tested. -/
def getItemsByFilter (p : Item → Bool) : Item → List Item
  | Item.node _ _ items => getItemsByFilterAll p items

/-- Loop body of `next` in `getItemsByFilter`, over a list of children. -/
def getItemsByFilterAll (p : Item → Bool) : List Item → List Item
  | [] => []
  | c :: cs => (if p c then [c] else []) ++ getItemsByFilter p c ++ getItemsByFilterAll p cs

end

/-- Predicate of `AbstractContentItem.getItemsById` (source lines 425-433):
array ids are tested by `indexOf !== -1`, any other id by `===` — note that
unlike `hasId` there is no truthiness guard, so an empty-string id matches
an empty-string query. -/
def getItemsByIdMatch (id : String) (t : Item) : Bool :=
  match t.d.id with
  | IdVal.arr l => l.contains id
  | IdVal.str s => s == id
  | IdVal.none => false

/-- `AbstractContentItem.getItemsById`: `getItemsByFilter` specialised to
the id predicate. -/
def getItemsById (t : Item) (id : String) : List Item :=
  getItemsByFilter (getItemsByIdMatch id) t

mutual

/-- `AbstractContentItem.callDownwards` (source lines 98-110), recording the
sequence of labels of the nodes on which the named method is invoked. In the
top-down branch the source contains two invocation statements in a row (a
spread call and an `apply` of the same method), hence two entries; the
recursive call into each child passes `bottomUp` but omits `skipSelf`, so
children are never skipped. -/
def callDownwards : Item → Bool → Bool → List String
  | Item.node d _ items, bottomUp, skipSelf =>
      (if !bottomUp && !skipSelf then [d.label, d.label] else []) ++
      callDownwardsAll items bottomUp ++
      (if bottomUp && !skipSelf then [d.label] else [])

/-- The `for` loop of `callDownwards` over the children. -/
def callDownwardsAll : List Item → Bool → List String
  | [], _ => []
  | c :: cs, b => callDownwards c b false ++ callDownwardsAll cs b

end

/-- `this._throttledEvents` as set by the constructor (source line 76). -/
def throttledEvents : List String := ["stateChanged"]

/-- Per-node state of the event batching machine: `pending` holds the names
whose `_pendingEventPropagations` flag is `true`, `scheduled` the callbacks
queued by `animFrame` (in order), and `delivered` the ordered log of
`layoutManager.emit` calls. -/
structure EventPropagationState where
  pending : List String
  scheduled : List String
  delivered : List String
deriving DecidableEq

/-- Constructor state (source line 75): no pending flags, nothing scheduled,
nothing delivered. -/
def initialEventState : EventPropagationState := ⟨[], [], []⟩

/-- `AbstractContentItem.scheduleEventPropagationToLayoutManager` (source
lines 653-663): a name outside `_throttledEvents` is delivered to the layout
manager synchronously; a throttled name whose pending flag is unset sets the
flag and schedules one deferred delivery; a throttled name whose flag is
already set is suppressed. `animFrame` itself is not under `src`. Modelled
from the spec: the deferred flush suspends delivery until the next
animation-frame scheduling opportunity, here an explicit queue drained by
`runScheduled`. -/
def scheduleEventPropagationToLayoutManager (s : EventPropagationState)
    (name : String) : EventPropagationState :=
  if !(throttledEvents.contains name) then
    { s with delivered := s.delivered ++ [name] }
  else if !(s.pending.contains name) then
    { s with pending := name :: s.pending, scheduled := s.scheduled ++ [name] }
  else s

/-- `AbstractContentItem.propagateEventToLayoutManager` (source lines
670-673): the deferred callback resets the pending flag and performs the one
delivery. -/
def propagateEventToLayoutManager (s : EventPropagationState)
    (name : String) : EventPropagationState :=
  { s with pending := s.pending.erase name, delivered := s.delivered ++ [name] }

/-- Drain of one scheduling window: every callback queued by `animFrame`
runs once, in order. -/
def runScheduled (s : EventPropagationState) : EventPropagationState :=
  s.scheduled.foldl propagateEventToLayoutManager { s with scheduled := [] }

/-- Emit one event name `n` times within one scheduling window, starting
from the constructor state. -/
def emitTimes (name : String) : Nat → EventPropagationState
  | 0 => initialEventState
  | n+1 => scheduleEventPropagationToLayoutManager (emitTimes name n) name

/-- Opaque rendering surface handle as far as `_$getArea` reads it: a jQuery
offset (left, top) and a width and height. -/
structure Surface where
  left : Int
  top : Int
  width : Int
  height : Int
deriving DecidableEq

/-- Return record of `_$getArea` (source lines 521-535 and the `Area`
interface): the two corners, the derived surface area and the back-reference
to the item. -/
structure Area where
  x1 : Int
  y1 : Int
  x2 : Int
  y2 : Int
  surface : Int
  contentItem : Item

/-- `AbstractContentItem._$getArea` (source lines 521-535): `element =
element || this.element`, then the corners are offset and offset plus
dimensions and `surface` is width times height. Modelled from the spec: the
jQuery offset/width-and-height helpers (`utils/jquery-legacy`, not under
`src`) and the no-attached-surface case, in which the declared
`Area | null` return type produces null. -/
def getArea (t : Item) (own : Option Surface) (element : Option Surface) : Option Area :=
  match element.orElse (fun _ => own) with
  | Option.none => Option.none
  | some e => some ⟨e.left, e.top, e.left + e.width, e.top + e.height,
      e.width * e.height, t⟩

/-- Leaf item used by the concrete `replaceChild` evidence: the old child. -/
def c1old : Item := Item.node ⟨"old", IdVal.none, true, false⟩ [] []

/-- Leaf item used by the concrete `replaceChild` evidence: the new child. -/
def c1new : Item := Item.node ⟨"new", IdVal.none, true, false⟩ [] []

/-- Parent of `c1old`, with the config view in sync. -/
def c1parent : Item := Item.node ⟨"p", IdVal.none, true, false⟩ [configOf c1old] [c1old]

/-- Leaf used by the concrete `callDownwards` evidence. -/
def c2leaf : Item := Item.node ⟨"n", IdVal.none, true, false⟩ [] []

/-- Parent of `c2leaf`. -/
def c2parent : Item := Item.node ⟨"p", IdVal.none, true, false⟩ [configOf c2leaf] [c2leaf]

/-- Component leaf of the cascade example: root, row and stack closable,
stack holding one component. -/
def c3comp : Item := Item.node ⟨"comp", IdVal.none, true, false⟩ [] []

/-- Stack of the cascade example, holding the one component. -/
def c3stack : Item := Item.node ⟨"stack", IdVal.none, true, false⟩ [configOf c3comp] [c3comp]

/-- Row of the cascade example, holding the stack. -/
def c3row : Item := Item.node ⟨"row", IdVal.none, true, false⟩ [configOf c3stack] [c3stack]

/-- Root of the cascade example, holding the row. -/
def c3root : Item := Item.node ⟨"root", IdVal.none, true, true⟩ [configOf c3row] [c3row]

/-- Item whose `config.id` is the empty string, the value
`UserItemConfig.defaults` assigns when the user omits `id`
(`UserConfig.ts` line 101). -/
def c10child : Item := Item.node ⟨"child", IdVal.str "", true, false⟩ [] []

/-- Parent of `c10child`. -/
def c10parent : Item := Item.node ⟨"parent", IdVal.none, true, false⟩ [configOf c10child] [c10child]

/-! ## Theorems -/

/-- Helper: splicing out the element at `indexOf id` empties the list
exactly when the list was the singleton of that element. -/
theorem eraseIdx_indexOf_eq_nil_iff (l : List String) (id : String) (h : id ∈ l) :
    l.eraseIdx (l.indexOf id) = [] ↔ l = [id] := by
  induction l with
  | nil => simp at h
  | cons a t ih =>
      by_cases hai : a = id
      · subst hai
        rw [List.indexOf_cons_self]
        simp [List.eraseIdx]
      · have hmt : id ∈ t := by
          rcases List.mem_cons.mp h with h1 | h1
          · exact absurd h1.symm hai
          · exact h1
        rw [List.indexOf_cons_ne _ hai]
        simp [List.eraseIdx, hai]

/-- C6: on a fresh node (whose `config.id` is falsy: absent or the
default-config empty string) `hasId "a"` is false; after `addId "a"` it is
true; after a further `addId "b"` both ids are present; after
`removeId "a"`, `"a"` is gone and `"b"` remains; and `addId` is a no-op on a
present id, promotes a falsy id to a scalar, widens a scalar to a
two-element sequence and appends to a sequence. -/
theorem id_subsystem_chain :
    (∀ v : IdVal, jsTruthy v = false →
      hasId v "a" = false ∧
      hasId (addId v "a") "a" = true ∧
      hasId (addId (addId v "a") "b") "a" = true ∧
      hasId (addId (addId v "a") "b") "b" = true ∧
      hasId (removeId (addId (addId v "a") "b") "a").1 "a" = false ∧
      hasId (removeId (addId (addId v "a") "b") "a").1 "b" = true) ∧
    (∀ v id, hasId v id = true → addId v id = v) ∧
    (∀ id, addId IdVal.none id = IdVal.str id) ∧
    (∀ s id, jsTruthy (IdVal.str s) = true → hasId (IdVal.str s) id = false →
      addId (IdVal.str s) id = IdVal.arr [s, id]) ∧
    (∀ l id, hasId (IdVal.arr l) id = false →
      addId (IdVal.arr l) id = IdVal.arr (l ++ [id])) := by
  refine ⟨?_, ?_, ?_, ?_, ?_⟩
  · intro v hv
    match v with
    | IdVal.none => decide
    | IdVal.str s =>
        simp [jsTruthy] at hv
        subst hv
        decide
    | IdVal.arr l => simp [jsTruthy] at hv
  · intro v id h
    simp [addId, h]
  · intro id
    rfl
  · intro s id ht h
    simp [addId, h, ht]
  · intro l id h
    have hm : id ∉ l := by
      simpa [hasId, jsTruthy] using h
    simp [addId, h, jsTruthy, hasId, hm]

/-- Witness for `id_subsystem_chain` at the default-config fresh id (the
empty string) and at a concrete sequence id. -/
theorem id_subsystem_chain_witness :
    jsTruthy (IdVal.str "") = false ∧
    hasId (removeId (addId (addId (IdVal.str "") "a") "b") "a").1 "b" = true ∧
    addId (IdVal.arr ["x"]) "y" = IdVal.arr ["x", "y"] :=
  ⟨by decide,
   (id_subsystem_chain.1 (IdVal.str "") (by decide)).2.2.2.2.2,
   id_subsystem_chain.2.2.2.2 ["x"] "y" (by decide)⟩

/-- C7 counterexample: `removeId` on the singleton sequence id `["a"]`
leaves the empty sequence (the splice is not collapsed to absent), so the
claim that removing an element from a sequence id never leaves an empty
sequence is false on the code. -/
theorem removeId_singleton_leaves_empty_seq :
    (removeId (IdVal.arr ["a"]) "a").1 = IdVal.arr [] ∧ ¬ I4 (IdVal.arr []) := by
  constructor
  · rfl
  · intro h
    exact h rfl

/-- C7 amended: `addId` preserves invariant I4, and `removeId` preserves it
in every case except one — removing the last remaining element of a
singleton sequence id leaves the empty sequence instead of collapsing it to
absent. -/
theorem id_ops_preserve_I4_except_singleton (v : IdVal) (id : String) (h : I4 v) :
    I4 (addId v id) ∧ (I4 (removeId v id).1 ↔ v ≠ IdVal.arr [id]) := by
  constructor
  · by_cases hh : hasId v id = true
    · simpa [addId, hh] using h
    · rw [Bool.not_eq_true] at hh
      match v with
      | IdVal.none => simp [addId, hh, jsTruthy, I4]
      | IdVal.str s =>
          by_cases hs : s = ""
          · subst hs; simp [addId, hh, jsTruthy, I4]
          · simp [addId, hh, jsTruthy, hs, I4]
      | IdVal.arr l => simp [addId, hh, jsTruthy, I4]
  · match v with
    | IdVal.none => simp [removeId, hasId, jsTruthy, I4]
    | IdVal.str s =>
        by_cases hh : hasId (IdVal.str s) id = true
        · simp [removeId, hh, I4]
        · rw [Bool.not_eq_true] at hh
          simp [removeId, hh, I4]
    | IdVal.arr l =>
        by_cases hh : hasId (IdVal.arr l) id = true
        · have hmem : id ∈ l := by
            simp [hasId, jsTruthy] at hh
            exact hh
          have hiff := eraseIdx_indexOf_eq_nil_iff l id hmem
          have h1 : (removeId (IdVal.arr l) id).1 =
              IdVal.arr (l.eraseIdx (l.indexOf id)) := by
            simp [removeId, hh]
          rw [h1]
          simp only [I4, ne_eq, IdVal.arr.injEq]
          exact not_congr hiff
        · rw [Bool.not_eq_true] at hh
          have hl : ¬ l = [] := by
            intro he
            exact h (by rw [he])
          have hnm : ¬ l = [id] := by
            intro he
            subst he
            simp [hasId, jsTruthy] at hh
          simp [removeId, hh, I4]
          exact iff_of_true hl hnm

/-- Witness for `id_ops_preserve_I4_except_singleton` at the two-element
sequence id `["a", "b"]` and the id `"a"`. -/
theorem id_ops_preserve_I4_witness :
    I4 (addId (IdVal.arr ["a", "b"]) "a") ∧
    (I4 (removeId (IdVal.arr ["a", "b"]) "a").1 ↔ IdVal.arr ["a", "b"] ≠ IdVal.arr ["a"]) :=
  id_ops_preserve_I4_except_singleton (IdVal.arr ["a", "b"]) "a" (by simp [I4])

/-- C5: the validation error of each of `removeChild` (argument is not a
current child), `replaceChild` (`oldChild` not found) and `removeId` (id not
present) is raised before any mutation, so the failing call returns the
receiver's children, config view and id unmodified. -/
theorem validation_errors_leave_state_unchanged :
    (∀ (t : Item) (lbl : String), idxOf t lbl = Option.none →
      removeChildLocal t lbl = (t, some "Cant remove child item. Unknown content item")) ∧
    (∀ (t : Item) (lbl : String) (nc : Item), idxOf t lbl = Option.none →
      replaceChild t lbl nc = (t, some "Cant replace child. oldChild is not child of this")) ∧
    (∀ (v : IdVal) (id : String), hasId v id = false →
      removeId v id = (v, some "Id not found")) := by
  refine ⟨?_, ?_, ?_⟩
  · intro t lbl h
    simp [removeChildLocal, h]
  · intro t lbl nc h
    simp [replaceChild, h]
  · intro v id h
    simp [removeId, h]

/-- Witness for `validation_errors_leave_state_unchanged`: a label that is
not a child of `c1parent` and an id not present in a scalar id. -/
theorem validation_errors_witness :
    idxOf c1parent "zzz" = Option.none ∧
    removeChildLocal c1parent "zzz" =
      (c1parent, some "Cant remove child item. Unknown content item") ∧
    replaceChild c1parent "zzz" c1new =
      (c1parent, some "Cant replace child. oldChild is not child of this") ∧
    removeId (IdVal.str "x") "y" = (IdVal.str "x", some "Id not found") :=
  ⟨by rfl,
   validation_errors_leave_state_unchanged.1 c1parent "zzz" (by rfl),
   validation_errors_leave_state_unchanged.2.1 c1parent "zzz" c1new (by rfl),
   validation_errors_leave_state_unchanged.2.2 (IdVal.str "x") "y" (by decide)⟩

/-- Helper: `removeChild` never touches the data of the node it is invoked
through the tree on — in particular the root node of the tree survives every
removal with its own record intact (only children lists along the path
change). -/
theorem removeChildAt_preserves_d (t : Item) (q : List Nat) (k : Nat) :
    (removeChildAt t q k).d = t.d := by
  cases q with
  | nil =>
      cases t
      rfl
  | cons j p =>
      cases t with
      | node d c items =>
          simp only [removeChildAt]
          split
          · rfl
          · rfl

/-- C3: removing the only child of a closable, non-root container is the
same tree transformation as removing that container from its own parent —
so the collapse cascades upward, and by the definition of `removeChildAt` it
stops at the root (`isRoot`), at a non-closable ancestor or at an ancestor
with remaining children; moreover the root node itself survives every
removal with its data intact. -/
theorem removeChild_cascades_and_preserves_root (root : Item) (p : List Nat) (i : Nat)
    (h1 : (getAtPath root (p ++ [i])).contentItems.length = 1)
    (h2 : (getAtPath root (p ++ [i])).d.isClosable = true)
    (h3 : (getAtPath root (p ++ [i])).d.isRoot = false) :
    removeChildAt root (p ++ [i]) 0 = removeChildAt root p i ∧
    ∀ (q : List Nat) (k : Nat), (removeChildAt root q k).d = root.d := by
  refine ⟨?_, fun q k => removeChildAt_preserves_d root q k⟩
  induction p generalizing root with
  | nil =>
      have hc : getAtPath root ([] ++ [i]) = childAt root i := rfl
      rw [hc] at h1 h2 h3
      show removeChildAt root [i] 0 = removeChildAt root [] i
      simp only [removeChildAt]
      obtain ⟨x, hx⟩ := List.length_eq_one.mp h1
      have hci : (spliceBoth (childAt root i) 0).contentItems =
          (childAt root i).contentItems.eraseIdx 0 := by
        cases childAt root i
        rfl
      have hempty : (spliceBoth (childAt root i) 0).contentItems.length = 0 := by
        rw [hci, hx]
        rfl
      have hd : (spliceBoth (childAt root i) 0).d = (childAt root i).d := by
        cases childAt root i
        rfl
      rw [hempty, hd, h2, h3]
      rfl
  | cons j p ih =>
      have hstep : ∀ (x : List Nat) (y : Nat),
          removeChildAt root (j :: x) y =
            (if (removeChildAt (childAt root j) x y).contentItems.length == 0 &&
                !(removeChildAt (childAt root j) x y).d.isRoot &&
                (removeChildAt (childAt root j) x y).d.isClosable then
               spliceBoth root j
             else
               setChildAt root j (removeChildAt (childAt root j) x y)) :=
        fun x y => rfl
      show removeChildAt root (j :: (p ++ [i])) 0 = removeChildAt root (j :: p) i
      rw [hstep (p ++ [i]) 0, hstep p i]
      have hrec := ih (childAt root j) h1 h2 h3
      rw [hrec]

/-- Witness for `removeChild_cascades_and_preserves_root` at the spec's own
example: root holding a closable row holding a closable stack with one
component; removing the component collapses the stack (and then the row),
and equals removing the stack from the row. -/
theorem removeChild_cascades_witness :
    (getAtPath c3root ([0] ++ [0])).contentItems.length = 1 ∧
    (getAtPath c3root ([0] ++ [0])).d.isClosable = true ∧
    (getAtPath c3root ([0] ++ [0])).d.isRoot = false ∧
    (removeChildAt c3root ([0] ++ [0]) 0 = removeChildAt c3root [0] 0 ∧
     ∀ (q : List Nat) (k : Nat), (removeChildAt c3root q k).d = c3root.d) :=
  ⟨rfl, rfl, rfl, removeChild_cascades_and_preserves_root c3root [0] 0 rfl rfl rfl⟩

/-- Helper: the full cascade on the spec's example, evaluated — removing the
one component empties the stack, which is removed from the row, which is
removed from the root; the root survives with no children. -/
theorem removeChildAt_c3_example :
    removeChildAt c3root [0, 0] 0 = Item.node ⟨"root", IdVal.none, true, true⟩ [] [] := rfl

/-- C1 (code-bug evidence): starting from a well-formed one-child tree, a
successful `replaceChild` swaps the entry of `contentItems` but leaves
`config.content` holding the old child's config (the source's own TODO at
line 260 records that the config is not updated), so invariant I3 — the two
sequences correspond index by index — fails after the call, refuting the
claim that any sequence of the three mutations preserves I1-I3. -/
theorem replaceChild_breaks_config_sync :
    wellFormed c1parent ∧
    (replaceChild c1parent "old" c1new).2 = Option.none ∧
    (replaceChild c1parent "old" c1new).1.contentItems = [c1new] ∧
    (replaceChild c1parent "old" c1new).1.content = [configOf c1old] ∧
    ¬ wellFormed (replaceChild c1parent "old" c1new).1 := by
  refine ⟨?_, rfl, rfl, rfl, ?_⟩
  · simp [c1parent, c1old, wellFormed, wellFormedAll, configOf]
  · intro h
    simp [replaceChild, idxOf, c1parent, c1old, c1new, wellFormed, wellFormedAll,
      configOf, Item.d, Item.content, Item.contentItems] at h

/-- C2 (code-bug evidence): in top-down mode `callDownwards` invokes the
named method twice on every visited node (the source contains two identical
invocation statements in its top-down branch), refuting the claim of exactly
one invocation per node; bottom-up mode does invoke exactly once per node,
children before self, and `skipSelf` omits the receiver. -/
theorem callDownwards_double_invocation :
    callDownwards c2leaf false false = ["n", "n"] ∧
    callDownwards c2parent false false = ["p", "p", "n", "n"] ∧
    callDownwards c2leaf true false = ["n"] ∧
    callDownwards c2parent true false = ["n", "p"] ∧
    callDownwards c2leaf false true = [] := by
  refine ⟨?_, ?_, ?_, ?_, ?_⟩ <;>
    simp [callDownwards, callDownwardsAll, c2leaf, c2parent]

/-- Helper: after the first emission of the throttled name within one
window the per-node state is saturated — pending flag set, exactly one
deferred delivery scheduled, nothing delivered yet — and every further
emission is suppressed. -/
theorem emitTimes_stateChanged (n : Nat) (hn : 0 < n) :
    emitTimes "stateChanged" n = ⟨["stateChanged"], ["stateChanged"], []⟩ := by
  induction n with
  | zero => omega
  | succ m ih =>
      cases Nat.eq_zero_or_pos m with
      | inl h0 =>
          subst h0
          decide
      | inr hpos =>
          have hs : emitTimes "stateChanged" (m + 1) =
              scheduleEventPropagationToLayoutManager
                (emitTimes "stateChanged" m) "stateChanged" := rfl
          rw [hs, ih hpos]
          decide

/-- Helper: a non-throttled name is delivered synchronously at every
emission, in call order, and nothing is ever scheduled or flagged for it. -/
theorem emitTimes_immediate (name : String)
    (h : throttledEvents.contains name = false) (n : Nat) :
    emitTimes name n = ⟨[], [], List.replicate n name⟩ := by
  induction n with
  | zero => rfl
  | succ m ih =>
      have hs : emitTimes name (m + 1) =
          scheduleEventPropagationToLayoutManager (emitTimes name m) name := rfl
      rw [hs, ih]
      have h2 : name ∉ throttledEvents := by simpa using h
      simp [scheduleEventPropagationToLayoutManager, h2, List.replicate_succ']

/-- C4: emitting the batched name `stateChanged` any positive number of
times within one scheduling window delivers nothing synchronously and, once
the deferred flush runs, results in exactly one delivery to the layout
manager; emitting a non-batched name `n` times results in exactly `n`
synchronous deliveries in call order, with nothing deferred. -/
theorem batched_event_single_delivery (n : Nat) (hn : 0 < n) :
    (emitTimes "stateChanged" n).delivered = [] ∧
    (runScheduled (emitTimes "stateChanged" n)).delivered = ["stateChanged"] ∧
    ∀ name, throttledEvents.contains name = false →
      (emitTimes name n).delivered = List.replicate n name ∧
      (emitTimes name n).scheduled = [] := by
  have h1 := emitTimes_stateChanged n hn
  refine ⟨by rw [h1], by rw [h1]; rfl, fun name h => ?_⟩
  rw [emitTimes_immediate name h n]
  exact ⟨rfl, rfl⟩

/-- Witness for `batched_event_single_delivery` at three emissions. -/
theorem batched_event_witness :
    (0 : Nat) < 3 ∧
    (runScheduled (emitTimes "stateChanged" 3)).delivered = ["stateChanged"] :=
  ⟨by decide, (batched_event_single_delivery 3 (by decide)).2.1⟩

/-- C8: `getArea` on a node with no attached surface returns null; on a node
whose surface has width `w` and height `h` at origin offset `(ox, oy)` it
returns the record with corners `(ox, oy)` and `(ox + w, oy + h)`, surface
`w * h`, and the back-reference to the node. -/
theorem getArea_no_surface_and_corners :
    (∀ t : Item, getArea t Option.none Option.none = Option.none) ∧
    (∀ (t : Item) (ox oy w h : Int),
      getArea t (some ⟨ox, oy, w, h⟩) Option.none =
        some ⟨ox, oy, ox + w, oy + h, w * h, t⟩) :=
  ⟨fun _ => rfl, fun _ _ _ _ _ => rfl⟩

mutual

/-- Helper: `getItemsByFilter` computes exactly the filter of the pre-order
descendant list. -/
theorem getItemsByFilter_eq_filter_descendants (p : Item → Bool) (t : Item) :
    getItemsByFilter p t = (descendants t).filter p := by
  cases t with
  | node d c items =>
      have h := getItemsByFilterAll_eq_filter p items
      simp only [getItemsByFilter, descendants]
      exact h

/-- Helper: list version of `getItemsByFilter_eq_filter_descendants`. -/
theorem getItemsByFilterAll_eq_filter (p : Item → Bool) (l : List Item) :
    getItemsByFilterAll p l = (descendantsList l).filter p := by
  cases l with
  | nil => simp [getItemsByFilterAll, descendantsList]
  | cons c cs =>
      have h1 := getItemsByFilter_eq_filter_descendants p c
      have h2 := getItemsByFilterAll_eq_filter p cs
      simp only [getItemsByFilterAll, descendantsList, h1, h2, List.filter_append,
        List.filter_cons]
      cases hp : p c <;> simp

end

mutual

/-- Helper: every strict descendant is a strictly smaller tree. -/
theorem isize_lt_of_mem_descendants (x t : Item) (hx : x ∈ descendants t) :
    isize x < isize t := by
  cases t with
  | node d c items =>
      have h := isize_le_of_mem_descendantsList x items
        (by simpa [descendants] using hx)
      simp only [isize]
      omega

/-- Helper: every member of the descendant list of a forest is bounded by
the forest size. -/
theorem isize_le_of_mem_descendantsList (x : Item) (l : List Item)
    (hx : x ∈ descendantsList l) : isize x ≤ isizeList l := by
  cases l with
  | nil => simp [descendantsList] at hx
  | cons c cs =>
      simp only [descendantsList, List.mem_cons, List.mem_append] at hx
      rcases hx with h | h | h
      · subst h
        simp only [isizeList]
        omega
      · have := isize_lt_of_mem_descendants x c h
        simp only [isizeList]
        omega
      · have := isize_le_of_mem_descendantsList x cs h
        simp only [isizeList]
        omega

end

/-- C9: for every tree and predicate, `getItemsByFilter` returns exactly the
descendants satisfying the predicate, in pre-order (each child is tested
before its own subtree, siblings in children order — the order of
`descendants`), and the receiver itself is never included. -/
theorem getItemsByFilter_preorder_excludes_self (p : Item → Bool) (t : Item) :
    getItemsByFilter p t = (descendants t).filter p ∧ t ∉ getItemsByFilter p t := by
  refine ⟨getItemsByFilter_eq_filter_descendants p t, ?_⟩
  rw [getItemsByFilter_eq_filter_descendants p t]
  intro hmem
  have hd : t ∈ descendants t := List.mem_of_mem_filter hmem
  have := isize_lt_of_mem_descendants t t hd
  omega

/-- C10: a node whose `config.id` is the empty string — the value the
default-config table assigns when the user omits `id` — answers false to
`hasId` for every string including the empty string, yet `getItemsById ""`
on an ancestor does return it: the two members disagree on empty-string
ids. -/
theorem hasId_getItemsById_empty_id_disagree :
    (∀ s : String, hasId (Item.d c10child).id s = false) ∧
    getItemsById c10parent "" = [c10child] := by
  constructor
  · intro s
    simp [c10child, Item.d, hasId, jsTruthy]
  · simp [getItemsById, getItemsByFilter, getItemsByFilterAll, c10parent, c10child,
      getItemsByIdMatch, Item.d, configOf]
